import Mathlib

/-!
Verification development for the MNIST backpropagation notebook:
the class `NeuralNetworkMNISTBackProp` together with the module-level
helper functions `sigmoid`, `D_sigmoid` and `D_cost`.

Embedding conventions:
* scalars are real numbers;
* a column vector (a numpy array of shape (n, 1)) is the list of its n
  entries, a matrix is the list of its rows;
* a numpy array crossing the public interface is modelled by `NDArray`,
  an explicit shape together with the entries, so that the dynamic
  shape checks of the source can be stated (a flat array of shape (n,)
  is distinguishable from a column of shape (n, 1));
* Python's `raise RuntimeError(msg)` is modelled by `Except.error msg`;
* `np.random.randn` is modelled as reading from a stream of standard
  normal draws, supplied as an oracle `g : Nat → ℝ`;
* `np.random.shuffle` is modelled as an oracle giving the permutation
  applied at each epoch.
-/

noncomputable section

abbrev Vec := List ℝ

abbrev Mat := List (List ℝ)

/-- The sigmoid function: `1.0 / (1.0 + np.exp(-z))` (scalar form; numpy
applies it elementwise). -/
def sigmoid (z : ℝ) : ℝ := 1 / (1 + Real.exp (-z))

/-- The derivative of the sigmoid function: `sigmoid(z) * (1 - sigmoid(z))`. -/
def D_sigmoid (z : ℝ) : ℝ := sigmoid z * (1 - sigmoid z)

/-- The derivative of the quadratic cost function: `output - target`
(scalar form; numpy applies it elementwise). -/
def D_cost (output target : ℝ) : ℝ := output - target

/-- Elementwise sum of two column vectors (numpy `+`). -/
def vAdd (u v : Vec) : Vec := List.zipWith (fun a b => a + b) u v

/-- Elementwise difference of two column vectors (numpy `-`). -/
def vSub (u v : Vec) : Vec := List.zipWith (fun a b => a - b) u v

/-- Elementwise (Hadamard) product of two column vectors (numpy `*`). -/
def hadamard (u v : Vec) : Vec := List.zipWith (fun a b => a * b) u v

/-- Inner product of two vectors. -/
def dot (u v : Vec) : ℝ := (List.zipWith (fun a b => a * b) u v).sum

/-- `np.dot` of an (m, n) matrix with an (n, 1) column vector. -/
def matVec (w : Mat) (a : Vec) : Vec := w.map (fun row => dot row a)

/-- `np.dot(d, a.T)` for column vectors `d` and `a`: the outer-product matrix. -/
def outer (d a : Vec) : Mat := d.map (fun x => a.map (fun y => x * y))

/-- Matrix transpose (`m.T`) of a matrix given as its list of rows. -/
def transposeM (m : Mat) : Mat :=
  match m with
  | [] => []
  | r :: _ => (List.range r.length).map (fun j => m.map (fun row => row.getD j 0))

/-- Elementwise sum of two matrices (numpy `+`). -/
def matAdd (a b : Mat) : Mat := List.zipWith vAdd a b

/-- Elementwise difference of two matrices (numpy `-`). -/
def matSub (a b : Mat) : Mat := List.zipWith vSub a b

/-- Scalar multiple of a column vector. -/
def smulV (c : ℝ) (v : Vec) : Vec := v.map (fun x => c * x)

/-- Scalar multiple of a matrix. -/
def smulM (c : ℝ) (m : Mat) : Mat := m.map (fun r => smulV c r)

/-- `D_cost` applied elementwise to two column vectors. -/
def D_costV (output target : Vec) : Vec := List.zipWith D_cost output target

/-- `sigmoid` applied elementwise to a column vector. -/
def sigmoidV (z : Vec) : Vec := z.map sigmoid

/-- `D_sigmoid` applied elementwise to a column vector. -/
def D_sigmoidV (z : Vec) : Vec := z.map D_sigmoid

/-- `np.zeros(b.shape)` for a column vector `b`. -/
def zerosLikeV (v : Vec) : Vec := v.map (fun _ => 0)

/-- `np.zeros(w.shape)` for a matrix `w`. -/
def zerosLikeM (m : Mat) : Mat := m.map (fun r => r.map (fun _ => (0 : ℝ)))

/-- A numpy ndarray as it crosses the public interface: an explicit shape
together with the (row-major) entries. -/
structure NDArray where
  shape : List Nat
  data : Vec

/-- An (n, 1) column-vector ndarray holding the entries `xs`. -/
def colVec (xs : Vec) : NDArray := ⟨[xs.length, 1], xs⟩

/-- A flat one-dimensional ndarray of shape (n,) holding the entries `xs`. -/
def flatVec (xs : Vec) : NDArray := ⟨[xs.length], xs⟩

/-- The parameter container of `NeuralNetworkMNISTBackProp`: the layer
sizes, one bias vector and one weight matrix per layer transition.
`self.nlayers` is `layersz.length`. -/
structure Network where
  layersz : List Nat
  biases : List Vec
  weights : List Mat

/-- `m` is an r × c matrix (r rows, each of length c). -/
def HasShape (m : Mat) (r c : Nat) : Prop := m.length = r ∧ ∀ row ∈ m, row.length = c

/-- Per-transition shape conformity of weights and biases with the layer
sizes: weight i has shape (layersz[i+1], layersz[i]) and bias i has
shape (layersz[i+1], 1). -/
inductive NetShapes : List Nat → List Mat → List Vec → Prop
  | last : ∀ l : Nat, NetShapes [l] [] []
  | cons : ∀ (l0 l1 : Nat) (rest : List Nat) (w : Mat) (ws : List Mat)
      (b : Vec) (bs : List Vec),
      HasShape w l1 l0 → b.length = l1 → NetShapes (l1 :: rest) ws bs →
      NetShapes (l0 :: l1 :: rest) (w :: ws) (b :: bs)

/-- The invariant established by the constructor: at least two layers,
positive layer sizes (the data model uses positive integers), and
shape-conformant parameters. -/
def Network.WF (net : Network) : Prop :=
  2 ≤ net.layersz.length ∧ (∀ s ∈ net.layersz, 0 < s) ∧
    NetShapes net.layersz net.weights net.biases

/-- `np.random.randn(r, 1)` for a bias column: r draws from the stream `g`
starting at offset `off`. -/
def randnCol (g : Nat → ℝ) (off r : Nat) : Vec :=
  (List.range r).map (fun i => g (off + i))

/-- `np.random.randn(r, c)`: an r × c matrix of draws from the stream `g`
starting at offset `off`. -/
def randnMat (g : Nat → ℝ) (off r c : Nat) : Mat :=
  (List.range r).map (fun i => (List.range c).map (fun j => g (off + i * c + j)))

/-- `self.biases = [np.random.randn(i, 1) for i in layersz[1:]]`, threading
the offset into the draw stream. -/
def mkBiases (g : Nat → ℝ) : Nat → List Nat → List Vec
  | _, [] => []
  | off, r :: rest => randnCol g off r :: mkBiases g (off + r) rest

/-- `self.weights = [np.random.randn(i, j) for i, j in zip(layersz[1:], layersz[:-1])]`,
threading the offset into the draw stream. -/
def mkWeights (g : Nat → ℝ) : Nat → List (Nat × Nat) → List Mat
  | _, [] => []
  | off, rc :: rest => randnMat g off rc.1 rc.2 :: mkWeights g (off + rc.1 * rc.2) rest

/-- The constructor `__init__`: validates `layersz[0] == 784` and
`layersz[-1] == 10`, then initialises biases and weights with draws from
the standard-normal streams `g` (biases) and `g2` (weights). -/
def init (g g2 : Nat → ℝ) (layersz : List Nat) : Except String Network :=
  if layersz.getD 0 0 = 784 then
    if layersz.getLastD 0 = 10 then
      Except.ok { layersz := layersz
                  biases := mkBiases g 0 (layersz.drop 1)
                  weights := mkWeights g2 0 ((layersz.drop 1).zip layersz.dropLast) }
    else Except.error ("The size of the output layer must be 10")
  else Except.error ("The size of the input layer must be 784")

/-- The loop of `feedforward`:
`for b, w in zip(self.biases, self.weights): a = sigmoid(np.dot(w, a) + b)`. -/
def feedforwardCore : List Vec → List Mat → Vec → Vec
  | b :: bs, w :: ws, a => feedforwardCore bs ws (sigmoidV (vAdd (matVec w a) b))
  | _, _, a => a

/-- `feedforward`, with the shape guard of the source:
`if a.shape != (self.layersz[0], 1): raise RuntimeError(...)`. -/
def feedforward (net : Network) (a : NDArray) : Except String Vec :=
  if a.shape = [net.layersz.getD 0 0, 1] then
    Except.ok (feedforwardCore net.biases net.weights a.data)
  else Except.error ("Input array has wrong shape - must be (784, 1)")

/-- The forward pass of `backpropagate`, retaining every pre-activation z
and every activation (the input included as layer 0):
returns `(zs, activations)`. -/
def forwardTrace : List Mat → List Vec → Vec → List Vec × List Vec
  | w :: ws, b :: bs, a =>
      let z := vAdd (matVec w a) b
      let t := forwardTrace ws bs (sigmoidV z)
      (z :: t.1, a :: t.2)
  | _, _, a => ([], [a])

/-- One iteration of the backward loop `for L in range(2, self.nlayers)`:
`delta = np.dot(self.weights[-L+1].T, delta) * D_sigmoid(zs[-L])`,
`dC_dBias[-L] = delta`, `dC_dWeight[-L] = np.dot(delta, activations[-L-1].T)`
(a Python index `-i` into a list of length `len` is position `len - i`). -/
def backStep (ws : List Mat) (zs as : List Vec) (st : Vec × List Vec × List Mat)
    (L : Nat) : Vec × List Vec × List Mat :=
  let delta := hadamard (matVec (transposeM (ws.getD (ws.length + 1 - L) [])) st.1)
      (D_sigmoidV (zs.getD (zs.length - L) []))
  (delta, st.2.1.set (st.2.1.length - L) delta,
    st.2.2.set (st.2.2.length - L) (outer delta (as.getD (as.length - L - 1) [])))

/-- The state of `backpropagate` after the zero initialisation of the
gradient lists, the forward pass, the output-layer step
(`delta = D_cost(activations[-1], y) * D_sigmoid(zs[-1])`,
`dC_dBias[-1] = delta`, `dC_dWeight[-1] = np.dot(delta, activations[-2].T)`)
and the backward loop. `n` is `self.nlayers`. -/
def backwardState (n : Nat) (ws : List Mat) (bs : List Vec) (x y : Vec) :
    Vec × List Vec × List Mat :=
  let dB0 := bs.map zerosLikeV
  let dW0 := ws.map zerosLikeM
  let t := forwardTrace ws bs x
  let delta := hadamard (D_costV (t.2.getLastD []) y) (D_sigmoidV (t.1.getLastD []))
  let dB1 := dB0.set (dB0.length - 1) delta
  let dW1 := dW0.set (dW0.length - 1) (outer delta (t.2.getD (t.2.length - 2) []))
  (List.range' 2 (n - 2)).foldl (backStep ws t.1 t.2) (delta, dB1, dW1)

/-- The value `(dC_dBias, dC_dWeight)` returned by `backpropagate` once the
shape guards have passed. -/
def backpropagateCore (n : Nat) (ws : List Mat) (bs : List Vec) (x y : Vec) :
    List Vec × List Mat :=
  ((backwardState n ws bs x y).2.1, (backwardState n ws bs x y).2.2)

/-- `backpropagate`, with the shape guards of the source:
`if x.shape != (self.layersz[0], 1)` and `if y.shape != (self.layersz[-1], 1)`. -/
def backpropagate (net : Network) (x y : NDArray) : Except String (List Vec × List Mat) :=
  if x.shape = [net.layersz.getD 0 0, 1] then
    if y.shape = [net.layersz.getLastD 0, 1] then
      Except.ok (backpropagateCore net.layersz.length net.weights net.biases x.data y.data)
    else Except.error ("Output array has wrong shape")
  else Except.error ("Input array has wrong shape")

/-- Modelled from the spec: the backpropagation algorithm exactly as §4.4
states it, as a structural recursion walking the layer transitions.
Forward: `z = W·a + b`, `a = sigmoid(z)`.  At the output layer
`delta = D_cost(a_last, y) ⊙ D_sigmoid(z_last)`; at each earlier transition
`delta = (W_next^T · delta_next) ⊙ D_sigmoid(z_this)`; bias-gradient = delta
and weight-gradient = `delta · a_previous^T` throughout.  Returns
(delta at the first transition, bias-gradients, weight-gradients), the two
lists ordered input-to-output, one entry per layer transition. -/
def bpSpec : List Mat → List Vec → Vec → Vec → Vec × List Vec × List Mat
  | [w], [b], a, y =>
      let z := vAdd (matVec w a) b
      let delta := hadamard (D_costV (sigmoidV z) y) (D_sigmoidV z)
      (delta, [delta], [outer delta a])
  | w :: wnext :: ws, b :: bnext :: bs, a, y =>
      let z := vAdd (matVec w a) b
      let t := bpSpec (wnext :: ws) (bnext :: bs) (sigmoidV z) y
      let delta := hadamard (matVec (transposeM wnext) t.1) (D_sigmoidV z)
      (delta, delta :: t.2.1, outer delta a :: t.2.2)
  | _, _, _, _ => ([], [], [])

/-- The zero-initialised gradient accumulators of an SGD batch:
`[np.zeros(b.shape) for b in self.biases]` and likewise for the weights. -/
def zeroGrads (net : Network) : List Vec × List Mat :=
  (net.biases.map zerosLikeV, net.weights.map zerosLikeM)

/-- One accumulation step of the batch loop:
`dC_dBias_sum = [bs+b for ...]`, `dC_dWeight_sum = [ws+w for ...]`. -/
def addGrads (acc g : List Vec × List Mat) : List Vec × List Mat :=
  (List.zipWith vAdd acc.1 g.1, List.zipWith matAdd acc.2 g.2)

/-- The per-batch gradient accumulation loop of `SGD`:
`for x, y in batch: dC_dBias, dC_dWeight = self.backpropagate(x, y); ...`. -/
def sumGrads (net : Network) : List (NDArray × NDArray) → (List Vec × List Mat) →
    Except String (List Vec × List Mat)
  | [], acc => Except.ok acc
  | p :: rest, acc => do
      let g ← backpropagate net p.1 p.2
      sumGrads net rest (addGrads acc g)

/-- One SGD batch update: accumulate the per-example gradients, then
`eta_scaled = float(eta)/len(batch)` and subtract `eta_scaled` times the
accumulated gradients from every weight and bias. -/
def updateBatch (net : Network) (eta : ℝ) (batch : List (NDArray × NDArray)) :
    Except String Network := do
  let s ← sumGrads net batch (zeroGrads net)
  Except.ok { layersz := net.layersz
              biases := List.zipWith
                (fun b db => vSub b (smulV (eta / (batch.length : ℝ)) db)) net.biases s.1
              weights := List.zipWith
                (fun w dw => matSub w (smulM (eta / (batch.length : ℝ)) dw)) net.weights s.2 }

/-- The sum of the per-example gradients of a batch (each example's
gradient being what `backpropagate` computes for it), starting from the
zero accumulators — the reference value for the batch update. -/
def gradSum (net : Network) (batch : List (NDArray × NDArray)) :
    List Vec × List Mat :=
  batch.foldl (fun acc p => addGrads acc
    (backpropagateCore net.layersz.length net.weights net.biases
      p.1.data p.2.data)) (zeroGrads net)

/-- `batches = [training_data[k:k+batchsz] for k in range(0, len(training_data), batchsz)]`
(Python's `range(0, n, step)` has `(n + step - 1) / step` elements). -/
def batchesOf {α : Type} (batchsz : Nat) (l : List α) : List (List α) :=
  (List.range' 0 ((l.length + batchsz - 1) / batchsz) batchsz).map
    (fun k => (l.drop k).take batchsz)

/-- The per-epoch batch loop of `SGD`, threading the updated network. -/
def runBatches (eta : ℝ) : Network → List (List (NDArray × NDArray)) →
    Except String Network
  | net, [] => Except.ok net
  | net, b :: rest => do
      let net2 ← updateBatch net eta b
      runBatches eta net2 rest

/-- The epoch loop of `SGD`.  `shuffle j` is the permutation that
`np.random.shuffle` applies to the training data at epoch `j`; since the
source shuffles in place, the shuffled data is what the next epoch sees. -/
def SGDgo (shuffle : Nat → List (NDArray × NDArray) → List (NDArray × NDArray))
    (batchsz : Nat) (eta : ℝ) :
    Nat → Nat → Network → List (NDArray × NDArray) → Except String Network
  | _, 0, net, _ => Except.ok net
  | j, e + 1, net, data => do
      let shuffled := shuffle j data
      let net2 ← runBatches eta net (batchesOf batchsz shuffled)
      SGDgo shuffle batchsz eta (j + 1) e net2 shuffled

/-- `SGD(training_data, epochs, batchsz, eta)` (the optional `test_data`
argument only adds end-of-epoch reporting and is omitted). -/
def SGD (net : Network) (training : List (NDArray × NDArray)) (epochs batchsz : Nat)
    (eta : ℝ)
    (shuffle : Nat → List (NDArray × NDArray) → List (NDArray × NDArray)) :
    Except String Network :=
  SGDgo shuffle batchsz eta 0 epochs net training

/-- Helper for `np.argmax`: scan with the running best index and value
(first occurrence of the maximum wins, as in numpy). -/
def argmaxAux : List ℝ → Nat → Nat → ℝ → Nat
  | [], _, best, _ => best
  | v :: vs, i, best, bestv =>
      if bestv < v then argmaxAux vs (i + 1) i v else argmaxAux vs (i + 1) best bestv

/-- `np.argmax` on a column vector: the index of the (first) maximum entry. -/
def argmax : Vec → Nat
  | [] => 0
  | v :: vs => argmaxAux vs 1 0 v

/-- `test_results = [(np.argmax(self.feedforward(x)), y) for (x, y) in test_data]`. -/
def evalResults (net : Network) : List (NDArray × Nat) →
    Except String (List (Nat × Nat))
  | [] => Except.ok []
  | p :: rest => do
      let out ← feedforward net p.1
      let tl ← evalResults net rest
      Except.ok ((argmax out, p.2) :: tl)

/-- `evaluate`: `sum(int(x == y) for (x, y) in test_results)`. -/
def evaluate (net : Network) (test : List (NDArray × Nat)) : Except String Nat := do
  let rs ← evalResults net test
  Except.ok (rs.countP (fun r => r.1 == r.2))

/-- A small concrete three-layer network used to instantiate theorems with
hypotheses at concrete inputs. -/
def sampleNet : Network :=
  { layersz := [1, 1, 1]
    biases := [[0], [0]]
    weights := [[[1]], [[1]]] }

/-! ### Basic facts about the array operations -/

theorem length_vAdd (u v : Vec) : (vAdd u v).length = min u.length v.length := by
  simp [vAdd]

theorem length_hadamard (u v : Vec) : (hadamard u v).length = min u.length v.length := by
  simp [hadamard]

theorem length_D_costV (u v : Vec) : (D_costV u v).length = min u.length v.length := by
  simp [D_costV]

theorem length_matVec (w : Mat) (a : Vec) : (matVec w a).length = w.length :=
  List.length_map _ _

theorem length_sigmoidV (z : Vec) : (sigmoidV z).length = z.length :=
  List.length_map _ _

theorem length_D_sigmoidV (z : Vec) : (D_sigmoidV z).length = z.length :=
  List.length_map _ _

theorem outer_shape (d a : Vec) : HasShape (outer d a) d.length a.length := by
  constructor
  · exact List.length_map _ _
  · intro row hrow
    rcases List.mem_map.mp hrow with ⟨x, _, rfl⟩
    exact List.length_map _ _

theorem transposeM_shape (m : Mat) (r c : Nat) (hm : HasShape m r c) (hr : 0 < r) :
    HasShape (transposeM m) c r := by
  rcases hm with ⟨hlen, hrow⟩
  cases m with
  | nil => simp at hlen; omega
  | cons row rest =>
      have hrowlen : row.length = c := hrow row (by simp)
      constructor
      · simp [transposeM, hrowlen]
      · intro q hq
        simp only [transposeM] at hq
        rcases List.mem_map.mp hq with ⟨j, _, rfl⟩
        simpa using hlen

theorem sigmoid_pos (z : ℝ) : 0 < sigmoid z := by
  unfold sigmoid
  have h := Real.exp_pos (-z)
  positivity

theorem sigmoid_lt_one (z : ℝ) : sigmoid z < 1 := by
  unfold sigmoid
  have h := Real.exp_pos (-z)
  rw [div_lt_one (by positivity)]
  linarith

/-! ### Claim C7 -/

/-- Claim C7: for every network, training set, learning rate and batch size,
running SGD with an epoch count of zero returns the network with every
weight matrix and every bias vector unchanged. -/
theorem SGD_zero_epochs_unchanged (net : Network)
    (training : List (NDArray × NDArray)) (batchsz : Nat) (eta : ℝ)
    (shuffle : Nat → List (NDArray × NDArray) → List (NDArray × NDArray)) :
    SGD net training 0 batchsz eta shuffle = Except.ok net := rfl

/-! ### Claim C5 -/

/-- Claim C5: on a column-vector input, feedforward raises a shape-mismatch
error if and only if the input length does not match the input layer size,
and backpropagate raises a shape-mismatch error if and only if the input
length does not match the input layer size or the target length does not
match the output layer size.  The guard sits before any computation, and in
the error case the result carries no partial value and the network is not
touched (the embedding returns only the error). -/
theorem shape_mismatch_error_iff (net : Network) (hne : net.layersz ≠ [])
    (n m : Nat) (xs ys : Vec) :
    ((∃ msg, feedforward net ⟨[n, 1], xs⟩ = Except.error msg) ↔
        n ≠ net.layersz.getD 0 0) ∧
    ((∃ msg, backpropagate net ⟨[n, 1], xs⟩ ⟨[m, 1], ys⟩ = Except.error msg) ↔
        (n ≠ net.layersz.getD 0 0 ∨ m ≠ net.layersz.getLastD 0)) := by
  constructor
  · unfold feedforward
    by_cases h : n = net.layersz.getD 0 0 <;>
      simp [h, -List.getD_eq_getElem?_getD]
  · unfold backpropagate
    by_cases h : n = net.layersz.getD 0 0 <;>
      by_cases h2 : m = net.layersz.getLastD 0 <;>
        simp [h, h2, -List.getD_eq_getElem?_getD, -List.getLastD_eq_getLast?]

theorem shape_mismatch_error_iff_witness :
    sampleNet.layersz ≠ [] ∧
    (((∃ msg, feedforward sampleNet ⟨[2, 1], []⟩ = Except.error msg) ↔
        2 ≠ sampleNet.layersz.getD 0 0) ∧
    ((∃ msg, backpropagate sampleNet ⟨[2, 1], []⟩ ⟨[3, 1], []⟩ = Except.error msg) ↔
        (2 ≠ sampleNet.layersz.getD 0 0 ∨ 3 ≠ sampleNet.layersz.getLastD 0))) :=
  ⟨by simp [sampleNet], shape_mismatch_error_iff sampleNet (by simp [sampleNet]) 2 3 [] []⟩

/-! ### Claim C10 -/

/-- Claim C10: a flat one-dimensional input array of shape (n,) is rejected
by feedforward and by backpropagate even when n matches the input layer
size, with the same shape-mismatch error a wrong-length column input gets;
only column-vector-shaped inputs pass the guard. -/
theorem flat_input_rejected (net : Network) (hne : net.layersz ≠ [])
    (n p : Nat) (xs ys : Vec) :
    feedforward net ⟨[n], xs⟩ =
      Except.error ("Input array has wrong shape - must be (784, 1)") ∧
    feedforward net ⟨[n], xs⟩ =
      feedforward net ⟨[net.layersz.getD 0 0 + 1, 1], xs⟩ ∧
    backpropagate net ⟨[n], xs⟩ ⟨[p, 1], ys⟩ =
      Except.error ("Input array has wrong shape") := by
  unfold feedforward backpropagate
  simp

theorem flat_input_rejected_witness :
    sampleNet.layersz ≠ [] ∧
    (feedforward sampleNet ⟨[1], []⟩ =
      Except.error ("Input array has wrong shape - must be (784, 1)") ∧
    feedforward sampleNet ⟨[1], []⟩ =
      feedforward sampleNet ⟨[sampleNet.layersz.getD 0 0 + 1, 1], []⟩ ∧
    backpropagate sampleNet ⟨[1], []⟩ ⟨[1, 1], []⟩ =
      Except.error ("Input array has wrong shape")) :=
  ⟨by simp [sampleNet], flat_input_rejected sampleNet (by simp [sampleNet]) 1 1 [] []⟩

/-! ### Claim C6 -/

theorem length_mkBiases (g : Nat → ℝ) :
    ∀ (off : Nat) (rs : List Nat), (mkBiases g off rs).length = rs.length
  | _, [] => rfl
  | off, r :: rest => by simp [mkBiases, length_mkBiases g (off + r) rest]

theorem mkBiases_getD_length (g : Nat → ℝ) :
    ∀ (off : Nat) (rs : List Nat) (i : Nat), i < rs.length →
      ((mkBiases g off rs).getD i []).length = rs.getD i 0
  | _, r :: _, 0, _ => by simp [mkBiases, randnCol]
  | off, r :: rest, i + 1, h => by
      simp only [mkBiases, List.getD_cons_succ]
      exact mkBiases_getD_length g (off + r) rest i (by simpa using h)

theorem length_mkWeights (g : Nat → ℝ) :
    ∀ (off : Nat) (ps : List (Nat × Nat)), (mkWeights g off ps).length = ps.length
  | _, [] => rfl
  | off, p :: rest => by simp [mkWeights, length_mkWeights g (off + p.1 * p.2) rest]

theorem randnMat_shape (g : Nat → ℝ) (off r c : Nat) :
    HasShape (randnMat g off r c) r c := by
  constructor
  · simp [randnMat]
  · intro row h
    simp only [randnMat] at h
    rcases List.mem_map.mp h with ⟨i, _, rfl⟩
    simp

theorem mkWeights_getD_shape (g : Nat → ℝ) :
    ∀ (off : Nat) (ps : List (Nat × Nat)) (i : Nat), i < ps.length →
      HasShape ((mkWeights g off ps).getD i []) (ps.getD i (0, 0)).1 (ps.getD i (0, 0)).2
  | off, p :: _, 0, _ => by simpa [mkWeights] using randnMat_shape g off p.1 p.2
  | off, p :: rest, i + 1, h => by
      simp only [mkWeights, List.getD_cons_succ]
      exact mkWeights_getD_shape g (off + p.1 * p.2) rest i (by simpa using h)

theorem zip_getD {α β : Type} :
    ∀ (l1 : List α) (l2 : List β) (i : Nat) (d1 : α) (d2 : β),
      i < l1.length → i < l2.length →
      (l1.zip l2).getD i (d1, d2) = (l1.getD i d1, l2.getD i d2)
  | _ :: _, _ :: _, 0, _, _, _, _ => rfl
  | _ :: t1, _ :: t2, i + 1, d1, d2, h1, h2 => by
      simp only [List.zip_cons_cons, List.getD_cons_succ]
      exact zip_getD t1 t2 i d1 d2 (by simpa using h1) (by simpa using h2)
  | [], _, _, _, _, h1, _ => absurd h1 (by simp)
  | _ :: _, [], _, _, _, _, h2 => absurd h2 (by simp)

theorem drop_one_getD {α : Type} (l : List α) (i : Nat) (d : α) :
    (l.drop 1).getD i d = l.getD (i + 1) d := by
  cases l <;> simp

theorem dropLast_getD {α : Type} :
    ∀ (l : List α) (i : Nat) (d : α), i < l.length - 1 →
      l.dropLast.getD i d = l.getD i d
  | [], _, _, h => by simp at h
  | [_], _, _, h => by simp at h
  | a :: b :: t, 0, d, _ => rfl
  | a :: b :: t, i + 1, d, h => by
      have : (a :: b :: t).dropLast = a :: (b :: t).dropLast := rfl
      rw [this, List.getD_cons_succ, List.getD_cons_succ]
      exact dropLast_getD (b :: t) i d (by simpa using h)

/-- Claim C6: network construction fails with a configuration error exactly
when the layer-size sequence violates the constraints (first element not
784 or last element not 10); on success it yields one weight matrix and one
bias vector per layer transition, weight i of shape
(layersz[i+1], layersz[i]) and bias i of shape (layersz[i+1], 1). -/
theorem init_config_error_iff_and_shapes (g g2 : Nat → ℝ) (layersz : List Nat)
    (hne : layersz ≠ []) :
    ((∃ msg, init g g2 layersz = Except.error msg) ↔
        (layersz.getD 0 0 ≠ 784 ∨ layersz.getLastD 0 ≠ 10)) ∧
    ∀ net, init g g2 layersz = Except.ok net →
      net.layersz = layersz ∧
      net.weights.length = layersz.length - 1 ∧
      net.biases.length = layersz.length - 1 ∧
      ∀ i, i < layersz.length - 1 →
        HasShape (net.weights.getD i []) (layersz.getD (i + 1) 0) (layersz.getD i 0) ∧
        (net.biases.getD i []).length = layersz.getD (i + 1) 0 := by
  constructor
  · unfold init
    by_cases h : layersz.getD 0 0 = 784 <;>
      by_cases h2 : layersz.getLastD 0 = 10 <;>
        simp [h, h2, -List.getD_eq_getElem?_getD, -List.getLastD_eq_getLast?]
  · intro net hok
    unfold init at hok
    by_cases h : layersz.getD 0 0 = 784
    · by_cases h2 : layersz.getLastD 0 = 10
      · rw [if_pos h, if_pos h2] at hok
        cases hok
        refine ⟨rfl, ?_, ?_, ?_⟩
        · simp [length_mkWeights, min_def]
        · simp [length_mkBiases]
        · intro i hi
          constructor
          · have hzl : i < ((layersz.drop 1).zip layersz.dropLast).length := by
              simp [min_def]; omega
            have := mkWeights_getD_shape g2 0 ((layersz.drop 1).zip layersz.dropLast) i hzl
            rw [zip_getD _ _ _ _ _ (by simpa using hi) (by simpa using hi)] at this
            rw [drop_one_getD, dropLast_getD _ _ _ hi] at this
            exact this
          · have := mkBiases_getD_length g 0 (layersz.drop 1) i (by simpa using hi)
            rw [drop_one_getD] at this
            exact this
      · rw [if_pos h, if_neg h2] at hok
        exact Except.noConfusion hok
    · rw [if_neg h] at hok
      exact Except.noConfusion hok

theorem init_config_error_iff_and_shapes_witness :
    ([784, 10] : List Nat) ≠ [] ∧
    (((∃ msg, init (fun _ => 0) (fun _ => 0) [784, 10] = Except.error msg) ↔
        (([784, 10] : List Nat).getD 0 0 ≠ 784 ∨
          ([784, 10] : List Nat).getLastD 0 ≠ 10)) ∧
    ∀ net, init (fun _ => 0) (fun _ => 0) [784, 10] = Except.ok net →
      net.layersz = [784, 10] ∧
      net.weights.length = ([784, 10] : List Nat).length - 1 ∧
      net.biases.length = ([784, 10] : List Nat).length - 1 ∧
      ∀ i, i < ([784, 10] : List Nat).length - 1 →
        HasShape (net.weights.getD i []) (([784, 10] : List Nat).getD (i + 1) 0)
          (([784, 10] : List Nat).getD i 0) ∧
        (net.biases.getD i []).length = ([784, 10] : List Nat).getD (i + 1) 0) :=
  ⟨by simp, init_config_error_iff_and_shapes (fun _ => 0) (fun _ => 0) [784, 10] (by simp)⟩

/-! ### Claim C3 -/

theorem netShapes_lengths {lsz : List Nat} {ws : List Mat} {bs : List Vec}
    (h : NetShapes lsz ws bs) :
    ws.length = lsz.length - 1 ∧ bs.length = lsz.length - 1 ∧ 1 ≤ lsz.length := by
  induction h with
  | last l => simp
  | cons l0 l1 rest w ws b bs hw hb hrest ih =>
      obtain ⟨ihw, ihb, ihl⟩ := ih
      simp only [List.length_cons] at ihw ihb ihl ⊢
      omega

theorem sampleNet_wf : sampleNet.WF := by
  refine ⟨by simp [sampleNet], by decide, ?_⟩
  show NetShapes [1, 1, 1] [[[1]], [[1]]] [[0], [0]]
  refine NetShapes.cons 1 1 [1] _ _ _ _ ⟨rfl, by simp⟩ rfl ?_
  refine NetShapes.cons 1 1 [] _ _ _ _ ⟨rfl, by simp⟩ rfl ?_
  exact NetShapes.last 1

theorem feedforwardCore_shape {lsz : List Nat} {ws : List Mat} {bs : List Vec}
    (h : NetShapes lsz ws bs) :
    ∀ a : Vec, a.length = lsz.getD 0 0 →
      (feedforwardCore bs ws a).length = lsz.getLastD 0 ∧
      (ws ≠ [] → ∀ v ∈ feedforwardCore bs ws a, 0 < v ∧ v < 1) := by
  induction h with
  | last l =>
      intro a ha
      constructor
      · simpa using ha
      · intro hne
        exact absurd rfl hne
  | cons l0 l1 rest w ws b bs hw hb hrest ih =>
      intro a ha
      have hstep : feedforwardCore (b :: bs) (w :: ws) a
          = feedforwardCore bs ws (sigmoidV (vAdd (matVec w a) b)) := rfl
      have hlen : (sigmoidV (vAdd (matVec w a) b)).length = (l1 :: rest).getD 0 0 := by
        rw [length_sigmoidV, length_vAdd, length_matVec, hw.1, hb]
        simp
      constructor
      · rw [hstep, (ih _ hlen).1]
        simp only [List.getLastD_cons]
      · intro _ v hv
        rw [hstep] at hv
        cases ws with
        | nil =>
            have hcore : feedforwardCore bs ([] : List Mat)
                (sigmoidV (vAdd (matVec w a) b)) = sigmoidV (vAdd (matVec w a) b) := by
              cases bs <;> rfl
            rw [hcore] at hv
            rcases List.mem_map.mp hv with ⟨z, _, rfl⟩
            exact ⟨sigmoid_pos z, sigmoid_lt_one z⟩
        | cons w2 ws2 =>
            exact (ih _ hlen).2 (by simp) v hv

/-- Claim C3: feedforward applies `z = W·a + b` then `a = sigmoid(z)` for
each layer transition in order (this is `feedforwardCore`) and returns the
final activation, a vector whose length is the output layer size with
every component strictly between 0 and 1; the embedding is a pure function
of the network, so the weights and biases are not modified. -/
theorem feedforward_output_shape_and_range (net : Network) (hwf : net.WF)
    (x : Vec) (hx : x.length = net.layersz.getD 0 0) :
    feedforward net (colVec x) = Except.ok (feedforwardCore net.biases net.weights x) ∧
    (feedforwardCore net.biases net.weights x).length = net.layersz.getLastD 0 ∧
    ∀ v ∈ feedforwardCore net.biases net.weights x, 0 < v ∧ v < 1 := by
  obtain ⟨h2, hpos, hns⟩ := hwf
  have hg : (colVec x).shape = [net.layersz.getD 0 0, 1] := by simp [colVec, hx]
  refine ⟨?_, (feedforwardCore_shape hns x hx).1, ?_⟩
  · unfold feedforward
    rw [if_pos hg]
    rfl
  · refine (feedforwardCore_shape hns x hx).2 ?_
    have hlen := netShapes_lengths hns
    intro hempty
    rw [hempty] at hlen
    simp at hlen
    omega

theorem feedforward_output_shape_and_range_witness :
    sampleNet.WF ∧ ([(0 : ℝ)].length = sampleNet.layersz.getD 0 0) ∧
    (feedforward sampleNet (colVec [0]) =
        Except.ok (feedforwardCore sampleNet.biases sampleNet.weights [0]) ∧
      (feedforwardCore sampleNet.biases sampleNet.weights [0]).length =
        sampleNet.layersz.getLastD 0 ∧
      ∀ v ∈ feedforwardCore sampleNet.biases sampleNet.weights [0], 0 < v ∧ v < 1) :=
  ⟨sampleNet_wf, by simp [sampleNet],
    feedforward_output_shape_and_range sampleNet sampleNet_wf [0] (by simp [sampleNet])⟩

/-! ### Claim C4 -/

theorem evalResults_ok (net : Network) :
    ∀ test : List (NDArray × Nat),
      (∀ p ∈ test, p.1.shape = [net.layersz.getD 0 0, 1]) →
      evalResults net test = Except.ok
        (test.map (fun p =>
          (argmax (feedforwardCore net.biases net.weights p.1.data), p.2)))
  | [], _ => rfl
  | p :: rest, h => by
      have hff : feedforward net p.1
          = Except.ok (feedforwardCore net.biases net.weights p.1.data) := by
        unfold feedforward
        rw [if_pos (h p (by simp))]
      unfold evalResults
      rw [hff, evalResults_ok net rest (fun q hq => h q (by simp [hq]))]
      rfl

/-- Claim C4: evaluate returns the number of dataset pairs whose predicted
digit (the argmax of the feedforward output) equals the label; the count is
between 0 and the dataset size, and on the empty dataset the result is 0. -/
theorem evaluate_counts_correct_predictions (net : Network)
    (test : List (NDArray × Nat))
    (hshape : ∀ p ∈ test, p.1.shape = [net.layersz.getD 0 0, 1]) :
    evaluate net test = Except.ok
      (test.countP (fun p =>
        argmax (feedforwardCore net.biases net.weights p.1.data) == p.2)) ∧
    test.countP (fun p =>
        argmax (feedforwardCore net.biases net.weights p.1.data) == p.2) ≤ test.length ∧
    evaluate net ([] : List (NDArray × Nat)) = Except.ok 0 := by
  refine ⟨?_, List.countP_le_length _, rfl⟩
  unfold evaluate
  rw [evalResults_ok net test hshape]
  show Except.ok _ = Except.ok _
  rw [List.countP_map]
  rfl

theorem evaluate_counts_correct_predictions_witness :
    (∀ p ∈ [(colVec [(0 : ℝ)], 0)], p.1.shape = [sampleNet.layersz.getD 0 0, 1]) ∧
    (evaluate sampleNet [(colVec [(0 : ℝ)], 0)] = Except.ok
      ([(colVec [(0 : ℝ)], 0)].countP (fun p =>
        argmax (feedforwardCore sampleNet.biases sampleNet.weights p.1.data) == p.2)) ∧
    [(colVec [(0 : ℝ)], 0)].countP (fun p =>
        argmax (feedforwardCore sampleNet.biases sampleNet.weights p.1.data) == p.2)
      ≤ [(colVec [(0 : ℝ)], 0)].length ∧
    evaluate sampleNet ([] : List (NDArray × Nat)) = Except.ok 0) :=
  ⟨by simp [colVec, sampleNet],
    evaluate_counts_correct_predictions sampleNet [(colVec [(0 : ℝ)], 0)]
      (by simp [colVec, sampleNet])⟩

/-! ### Claim C8 -/

theorem range'_add_step (step : Nat) :
    ∀ (s n : Nat),
      List.range' (s + step) n step = (List.range' s n step).map (fun k => k + step)
  | _, 0 => rfl
  | s, n + 1 => by
      rw [List.range'_succ, List.range'_succ]
      simp only [List.map_cons]
      rw [range'_add_step step (s + step) n]

theorem batchesOf_nil {α : Type} (sz : Nat) : batchesOf sz ([] : List α) = [] := by
  unfold batchesOf
  have h : ((([] : List α).length + sz - 1) / sz) = 0 := by
    simp only [List.length_nil, Nat.zero_add]
    rcases Nat.eq_zero_or_pos sz with h | h
    · simp [h]
    · exact Nat.div_eq_of_lt (by omega)
  rw [h]
  rfl

theorem batchesOf_cons_unfold {α : Type} (sz : Nat) (hsz : 0 < sz) (l : List α)
    (hl : l ≠ []) :
    batchesOf sz l = l.take sz :: batchesOf sz (l.drop sz) := by
  have hlen : 1 ≤ l.length := List.length_pos.mpr hl
  have hm : (l.length + sz - 1) / sz = (((l.drop sz).length + sz - 1) / sz) + 1 := by
    rw [List.length_drop]
    have h1 : l.length + sz - 1 = (l.length - 1) + sz := by omega
    rw [h1, Nat.add_div_right _ hsz]
    congr 1
    rcases Nat.lt_or_ge l.length sz with h | h
    · have e1 : l.length - sz = 0 := by omega
      rw [e1, Nat.div_eq_of_lt (by omega), Nat.div_eq_of_lt (by omega)]
    · have e1 : (l.length - sz) + sz - 1 = l.length - 1 := by omega
      rw [e1]
  unfold batchesOf
  rw [hm, List.range'_succ]
  simp only [List.map_cons, List.drop_zero]
  congr 1
  have hshift := range'_add_step sz 0 (((l.drop sz).length + sz - 1) / sz)
  rw [hshift, List.map_map]
  congr 1
  funext k
  simp only [Function.comp_apply]
  rw [List.drop_drop, Nat.add_comm k sz]

theorem flatten_batchesOf {α : Type} (sz : Nat) (hsz : 0 < sz) :
    ∀ (n : Nat) (l : List α), l.length ≤ n → (batchesOf sz l).flatten = l
  | _, [], _ => by simp [batchesOf_nil]
  | 0, a :: t, h => by simp at h
  | n + 1, a :: t, h => by
      rw [batchesOf_cons_unfold sz hsz _ (by simp), List.flatten_cons,
        flatten_batchesOf sz hsz n ((a :: t).drop sz)
          (by rw [List.length_drop]; simp only [List.length_cons] at h ⊢; omega)]
      exact List.take_append_drop sz (a :: t)

theorem batchesOf_mem_size {α : Type} (sz : Nat) (hsz : 0 < sz) :
    ∀ (n : Nat) (l : List α), l.length ≤ n →
      ∀ b ∈ batchesOf sz l, b ≠ [] ∧ b.length ≤ sz
  | _, [], _ => by simp [batchesOf_nil]
  | 0, a :: t, h => by simp at h
  | n + 1, a :: t, h => by
      rw [batchesOf_cons_unfold sz hsz _ (by simp)]
      intro b hb
      rcases List.mem_cons.mp hb with hb | hb
      · subst hb
        constructor
        · intro hnil
          rcases List.take_eq_nil_iff.mp hnil with h0 | h0
          · omega
          · exact List.noConfusion h0
        · rw [List.length_take]
          omega
      · exact batchesOf_mem_size sz hsz n ((a :: t).drop sz)
          (by rw [List.length_drop]; simp only [List.length_cons] at h ⊢; omega) b hb

theorem batchesOf_dropLast_size {α : Type} (sz : Nat) (hsz : 0 < sz) :
    ∀ (n : Nat) (l : List α), l.length ≤ n →
      ∀ b ∈ (batchesOf sz l).dropLast, b.length = sz
  | _, [], _ => by simp [batchesOf_nil]
  | 0, a :: t, h => by simp at h
  | n + 1, a :: t, h => by
      rw [batchesOf_cons_unfold sz hsz _ (by simp)]
      intro b hb
      by_cases hrest : batchesOf sz ((a :: t).drop sz) = []
      · rw [hrest] at hb
        simp at hb
      · obtain ⟨x, xs, hxs⟩ := List.exists_cons_of_ne_nil hrest
        rw [hxs] at hb
        have hdl : ((a :: t).take sz :: x :: xs).dropLast
            = (a :: t).take sz :: (x :: xs).dropLast := rfl
        rw [hdl] at hb
        rcases List.mem_cons.mp hb with hb | hb
        · subst hb
          have hdrop : ((a :: t).drop sz) ≠ [] := by
            intro h0
            rw [h0, batchesOf_nil] at hrest
            exact hrest rfl
          have hlt : sz < (a :: t).length := by
            have := List.length_pos.mpr hdrop
            rw [List.length_drop] at this
            omega
          rw [List.length_take]
          omega
        · rw [← hxs] at hb
          exact batchesOf_dropLast_size sz hsz n ((a :: t).drop sz)
            (by rw [List.length_drop]; simp only [List.length_cons] at h ⊢; omega) b hb

theorem batchesOf_dvd_size {α : Type} (sz : Nat) (hsz : 0 < sz) :
    ∀ (n : Nat) (l : List α), l.length ≤ n → sz ∣ l.length →
      ∀ b ∈ batchesOf sz l, b.length = sz
  | _, [], _, _ => by simp [batchesOf_nil]
  | 0, a :: t, h, _ => by simp at h
  | n + 1, a :: t, h, hdvd => by
      have hge : sz ≤ (a :: t).length := by
        rcases hdvd with ⟨c, hc⟩
        rcases Nat.eq_zero_or_pos c with h0 | h0
        · rw [h0, Nat.mul_zero] at hc
          exact absurd hc (by simp)
        · calc sz = sz * 1 := by omega
            _ ≤ sz * c := Nat.mul_le_mul_left sz h0
            _ = (a :: t).length := hc.symm
      rw [batchesOf_cons_unfold sz hsz _ (by simp)]
      intro b hb
      rcases List.mem_cons.mp hb with hb | hb
      · subst hb
        rw [List.length_take]
        omega
      · refine batchesOf_dvd_size sz hsz n ((a :: t).drop sz)
          (by rw [List.length_drop]; simp only [List.length_cons] at h ⊢; omega)
          ?_ b hb
        rw [List.length_drop]
        exact Nat.dvd_sub' hdvd dvd_rfl

/-- Claim C8: in every SGD epoch the (shuffled) training data — the shuffle
being modelled as a permutation oracle, as the uniform randomness lives in
the external numpy collaborator — is partitioned into consecutive batches
of the configured size, the last batch being smaller exactly when the set
size is not a multiple of the batch size (if it divides, all batches are
full); concatenating the batches gives back the shuffled data, so every
training example belongs to exactly one batch of the epoch, and the epoch
body of SGD runs over exactly these batches. -/
theorem SGD_epoch_batches_partition
    (shuffle : Nat → List (NDArray × NDArray) → List (NDArray × NDArray))
    (j : Nat) (data : List (NDArray × NDArray)) (batchsz : Nat)
    (hsz : 0 < batchsz) (hperm : (shuffle j data).Perm data) :
    (batchesOf batchsz (shuffle j data)).flatten = shuffle j data ∧
    (batchesOf batchsz (shuffle j data)).flatten.Perm data ∧
    (∀ b ∈ (batchesOf batchsz (shuffle j data)).dropLast, b.length = batchsz) ∧
    (∀ b ∈ batchesOf batchsz (shuffle j data), b ≠ [] ∧ b.length ≤ batchsz) ∧
    (batchsz ∣ (shuffle j data).length →
      ∀ b ∈ batchesOf batchsz (shuffle j data), b.length = batchsz) ∧
    (∀ (eta : ℝ) (e : Nat) (net : Network),
      SGDgo shuffle batchsz eta j (e + 1) net data =
        (runBatches eta net (batchesOf batchsz (shuffle j data))).bind
          (fun net2 => SGDgo shuffle batchsz eta (j + 1) e net2 (shuffle j data))) := by
  refine ⟨flatten_batchesOf batchsz hsz _ _ le_rfl, ?_,
    batchesOf_dropLast_size batchsz hsz _ _ le_rfl,
    batchesOf_mem_size batchsz hsz _ _ le_rfl,
    fun hdvd => batchesOf_dvd_size batchsz hsz _ _ le_rfl hdvd,
    fun _ _ _ => rfl⟩
  rw [flatten_batchesOf batchsz hsz _ _ le_rfl]
  exact hperm

theorem SGD_epoch_batches_partition_witness :
    0 < 1 ∧
    ((fun (_ : Nat) (l : List (NDArray × NDArray)) => l) 0
      [(colVec [(0 : ℝ)], colVec [(0 : ℝ)])]).Perm
        [(colVec [(0 : ℝ)], colVec [(0 : ℝ)])] ∧
    ((batchesOf 1 ((fun (_ : Nat) (l : List (NDArray × NDArray)) => l) 0
        [(colVec [(0 : ℝ)], colVec [(0 : ℝ)])])).flatten =
      (fun (_ : Nat) (l : List (NDArray × NDArray)) => l) 0
        [(colVec [(0 : ℝ)], colVec [(0 : ℝ)])] ∧
    ((batchesOf 1 ((fun (_ : Nat) (l : List (NDArray × NDArray)) => l) 0
        [(colVec [(0 : ℝ)], colVec [(0 : ℝ)])])).flatten.Perm
        [(colVec [(0 : ℝ)], colVec [(0 : ℝ)])] ∧
    (∀ b ∈ (batchesOf 1 ((fun (_ : Nat) (l : List (NDArray × NDArray)) => l) 0
        [(colVec [(0 : ℝ)], colVec [(0 : ℝ)])])).dropLast, b.length = 1) ∧
    (∀ b ∈ batchesOf 1 ((fun (_ : Nat) (l : List (NDArray × NDArray)) => l) 0
        [(colVec [(0 : ℝ)], colVec [(0 : ℝ)])]), b ≠ [] ∧ b.length ≤ 1) ∧
    (1 ∣ ((fun (_ : Nat) (l : List (NDArray × NDArray)) => l) 0
        [(colVec [(0 : ℝ)], colVec [(0 : ℝ)])]).length →
      ∀ b ∈ batchesOf 1 ((fun (_ : Nat) (l : List (NDArray × NDArray)) => l) 0
        [(colVec [(0 : ℝ)], colVec [(0 : ℝ)])]), b.length = 1) ∧
    (∀ (eta : ℝ) (e : Nat) (net : Network),
      SGDgo (fun (_ : Nat) (l : List (NDArray × NDArray)) => l) 1 eta 0 (e + 1) net
          [(colVec [(0 : ℝ)], colVec [(0 : ℝ)])] =
        (runBatches eta net (batchesOf 1
            ((fun (_ : Nat) (l : List (NDArray × NDArray)) => l) 0
              [(colVec [(0 : ℝ)], colVec [(0 : ℝ)])]))).bind
          (fun net2 => SGDgo (fun (_ : Nat) (l : List (NDArray × NDArray)) => l)
            1 eta (0 + 1) e net2
            ((fun (_ : Nat) (l : List (NDArray × NDArray)) => l) 0
              [(colVec [(0 : ℝ)], colVec [(0 : ℝ)])]))))) :=
  ⟨Nat.one_pos, List.Perm.refl _,
    SGD_epoch_batches_partition (fun _ l => l) 0
      [(colVec [(0 : ℝ)], colVec [(0 : ℝ)])] 1 Nat.one_pos (List.Perm.refl _)⟩

/-! ### Claim C1 -/

theorem getLastD_irrel {α : Type} (d1 d2 : α) (l : List α) (h : l ≠ []) :
    l.getLastD d1 = l.getLastD d2 := by
  cases l with
  | nil => exact absurd rfl h
  | cons b t => rw [List.getLastD_cons, List.getLastD_cons]

theorem forwardTrace_lengths :
    ∀ (ws : List Mat) (bs : List Vec) (a : Vec), ws.length = bs.length →
      (forwardTrace ws bs a).1.length = ws.length ∧
      (forwardTrace ws bs a).2.length = ws.length + 1
  | [], [], a, _ => by simp [forwardTrace]
  | w :: ws, b :: bs, a, h => by
      have ih := forwardTrace_lengths ws bs (sigmoidV (vAdd (matVec w a) b))
        (by simpa using h)
      simp [forwardTrace, ih.1, ih.2]
  | [], _ :: _, _, h => by simp at h
  | _ :: _, [], _, h => by simp at h

theorem forwardTrace_fst_ne_nil (w : Mat) (ws : List Mat) (b : Vec) (bs : List Vec)
    (a : Vec) : (forwardTrace (w :: ws) (b :: bs) a).1 ≠ [] := by
  simp [forwardTrace]

theorem forwardTrace_snd_ne_nil : ∀ (ws : List Mat) (bs : List Vec) (a : Vec),
    (forwardTrace ws bs a).2 ≠ []
  | w :: ws, b :: bs, a => by simp [forwardTrace]
  | [], _, a => by simp [forwardTrace]
  | _ :: _, [], a => by simp [forwardTrace]

theorem foldl_backStep_lengths (ws : List Mat) (zs as : List Vec) :
    ∀ (Ll : List Nat) (st : Vec × List Vec × List Mat),
      (Ll.foldl (backStep ws zs as) st).2.1.length = st.2.1.length ∧
      (Ll.foldl (backStep ws zs as) st).2.2.length = st.2.2.length
  | [], _ => ⟨rfl, rfl⟩
  | L :: Ls, st => by
      have h := foldl_backStep_lengths ws zs as Ls (backStep ws zs as st L)
      rw [List.foldl_cons]
      rw [h.1, h.2]
      constructor <;> simp [backStep]

theorem foldl_backStep_cons (w1 : Mat) (wsR : List Mat) (z1 : Vec) (zsT : List Vec)
    (a0 : Vec) (asT : List Vec) (hws : wsR.length = zsT.length)
    (has2 : asT.length = zsT.length + 1) :
    ∀ (Ll : List Nat) (d v0 : Vec) (dBt : List Vec) (m0 : Mat) (dWt : List Mat),
      dBt.length = zsT.length → dWt.length = zsT.length →
      (∀ L ∈ Ll, 2 ≤ L ∧ L ≤ zsT.length) →
      Ll.foldl (backStep (w1 :: wsR) (z1 :: zsT) (a0 :: asT)) (d, v0 :: dBt, m0 :: dWt)
        = ((Ll.foldl (backStep wsR zsT asT) (d, dBt, dWt)).1,
           v0 :: (Ll.foldl (backStep wsR zsT asT) (d, dBt, dWt)).2.1,
           m0 :: (Ll.foldl (backStep wsR zsT asT) (d, dBt, dWt)).2.2)
  | [], _, _, _, _, _, _, _, _ => rfl
  | L :: Ls, d, v0, dBt, m0, dWt, hB, hW, hL => by
      obtain ⟨hL2, hLk⟩ := hL L (by simp)
      have hstep : backStep (w1 :: wsR) (z1 :: zsT) (a0 :: asT) (d, v0 :: dBt, m0 :: dWt) L
          = ((backStep wsR zsT asT (d, dBt, dWt) L).1,
             v0 :: (backStep wsR zsT asT (d, dBt, dWt) L).2.1,
             m0 :: (backStep wsR zsT asT (d, dBt, dWt) L).2.2) := by
        unfold backStep
        have e1 : (w1 :: wsR).length + 1 - L = (wsR.length + 1 - L) + 1 := by
          simp only [List.length_cons]
          omega
        have e2 : (z1 :: zsT).length - L = (zsT.length - L) + 1 := by
          simp only [List.length_cons]
          omega
        have e3 : (v0 :: dBt).length - L = (dBt.length - L) + 1 := by
          simp only [List.length_cons]
          omega
        have e4 : (m0 :: dWt).length - L = (dWt.length - L) + 1 := by
          simp only [List.length_cons]
          omega
        have e5 : (a0 :: asT).length - L - 1 = (asT.length - L - 1) + 1 := by
          simp only [List.length_cons]
          omega
        rw [e1, e2, e3, e4, e5]
        simp only [List.getD_cons_succ, List.set_cons_succ]
      rw [List.foldl_cons, List.foldl_cons, hstep]
      exact foldl_backStep_cons w1 wsR z1 zsT a0 asT hws has2 Ls _ _ _ _ _
        (by simp [backStep, hB])
        (by simp [backStep, hW])
        (fun L2 hm => hL L2 (by simp [hm]))

theorem backwardState_def (n : Nat) (ws : List Mat) (bs : List Vec) (x y : Vec) :
    backwardState n ws bs x y =
      (List.range' 2 (n - 2)).foldl
        (backStep ws (forwardTrace ws bs x).1 (forwardTrace ws bs x).2)
        (hadamard (D_costV ((forwardTrace ws bs x).2.getLastD []) y)
            (D_sigmoidV ((forwardTrace ws bs x).1.getLastD [])),
          (bs.map zerosLikeV).set ((bs.map zerosLikeV).length - 1)
            (hadamard (D_costV ((forwardTrace ws bs x).2.getLastD []) y)
              (D_sigmoidV ((forwardTrace ws bs x).1.getLastD []))),
          (ws.map zerosLikeM).set ((ws.map zerosLikeM).length - 1)
            (outer (hadamard (D_costV ((forwardTrace ws bs x).2.getLastD []) y)
                (D_sigmoidV ((forwardTrace ws bs x).1.getLastD [])))
              ((forwardTrace ws bs x).2.getD
                ((forwardTrace ws bs x).2.length - 2) []))) := rfl

theorem bpSpec_lengths :
    ∀ (ws : List Mat) (bs : List Vec) (x y : Vec), ws.length = bs.length →
      (bpSpec ws bs x y).2.1.length = ws.length ∧
      (bpSpec ws bs x y).2.2.length = ws.length
  | [], [], x, y, _ => by
      rw [show bpSpec [] [] x y = ([], [], []) from rfl]
      simp
  | [w], [b], x, y, _ => by
      rw [show bpSpec [w] [b] x y
          = (hadamard (D_costV (sigmoidV (vAdd (matVec w x) b)) y)
              (D_sigmoidV (vAdd (matVec w x) b)),
             [hadamard (D_costV (sigmoidV (vAdd (matVec w x) b)) y)
              (D_sigmoidV (vAdd (matVec w x) b))],
             [outer (hadamard (D_costV (sigmoidV (vAdd (matVec w x) b)) y)
              (D_sigmoidV (vAdd (matVec w x) b))) x]) from rfl]
      simp
  | w1 :: w2 :: ws2, b1 :: b2 :: bs2, x, y, h => by
      have ih := bpSpec_lengths (w2 :: ws2) (b2 :: bs2)
        (sigmoidV (vAdd (matVec w1 x) b1)) y (by simpa using h)
      rw [show bpSpec (w1 :: w2 :: ws2) (b1 :: b2 :: bs2) x y
          = (hadamard (matVec (transposeM w2)
                (bpSpec (w2 :: ws2) (b2 :: bs2)
                  (sigmoidV (vAdd (matVec w1 x) b1)) y).1)
              (D_sigmoidV (vAdd (matVec w1 x) b1)),
             hadamard (matVec (transposeM w2)
                (bpSpec (w2 :: ws2) (b2 :: bs2)
                  (sigmoidV (vAdd (matVec w1 x) b1)) y).1)
              (D_sigmoidV (vAdd (matVec w1 x) b1)) ::
                (bpSpec (w2 :: ws2) (b2 :: bs2)
                  (sigmoidV (vAdd (matVec w1 x) b1)) y).2.1,
             outer (hadamard (matVec (transposeM w2)
                (bpSpec (w2 :: ws2) (b2 :: bs2)
                  (sigmoidV (vAdd (matVec w1 x) b1)) y).1)
              (D_sigmoidV (vAdd (matVec w1 x) b1))) x ::
                (bpSpec (w2 :: ws2) (b2 :: bs2)
                  (sigmoidV (vAdd (matVec w1 x) b1)) y).2.2) from rfl]
      simp [ih.1, ih.2]
  | [], _ :: _, _, _, h => by simp at h
  | [_], [], _, _, h => by simp at h
  | [_], _ :: _ :: _, _, _, h => by simp at h
  | _ :: _ :: _, [], _, _, h => by simp at h
  | _ :: _ :: _, [_], _, _, h => by simp at h

theorem backwardState_eq_bpSpec :
    ∀ (ws : List Mat) (bs : List Vec) (x y : Vec), ws.length = bs.length →
      1 ≤ ws.length → backwardState (ws.length + 1) ws bs x y = bpSpec ws bs x y
  | [], _, _, _, _, h => absurd h (by simp)
  | [w], [], _, _, hlen, _ => by simp at hlen
  | [w], _ :: _ :: _, _, _, hlen, _ => by simp at hlen
  | _ :: _ :: _, [], _, _, hlen, _ => by simp at hlen
  | _ :: _ :: _, [_], _, _, hlen, _ => by simp at hlen
  | [w], [b], x, y, _, _ => by
      rw [backwardState_def,
        show forwardTrace [w] [b] x
          = ([vAdd (matVec w x) b], [x, sigmoidV (vAdd (matVec w x) b)]) from rfl,
        show bpSpec [w] [b] x y
          = (hadamard (D_costV (sigmoidV (vAdd (matVec w x) b)) y)
              (D_sigmoidV (vAdd (matVec w x) b)),
             [hadamard (D_costV (sigmoidV (vAdd (matVec w x) b)) y)
              (D_sigmoidV (vAdd (matVec w x) b))],
             [outer (hadamard (D_costV (sigmoidV (vAdd (matVec w x) b)) y)
              (D_sigmoidV (vAdd (matVec w x) b))) x]) from rfl]
      simp [List.getLastD_cons]
  | w1 :: w2 :: ws2, b1 :: b2 :: bs2, x, y, hlen, _ => by
      have hlen2 : (w2 :: ws2).length = (b2 :: bs2).length := by simpa using hlen
      have hlen3 : ws2.length = bs2.length := by simpa using hlen
      have ih := backwardState_eq_bpSpec (w2 :: ws2) (b2 :: bs2)
        (sigmoidV (vAdd (matVec w1 x) b1)) y hlen2 (by simp)
      obtain ⟨hz, ha⟩ := forwardTrace_lengths (w2 :: ws2) (b2 :: bs2)
        (sigmoidV (vAdd (matVec w1 x) b1)) hlen2
      simp only [List.length_cons] at hz ha
      have hT1ne := forwardTrace_fst_ne_nil w2 ws2 b2 bs2
        (sigmoidV (vAdd (matVec w1 x) b1))
      have hT2ne := forwardTrace_snd_ne_nil (w2 :: ws2) (b2 :: bs2)
        (sigmoidV (vAdd (matVec w1 x) b1))
      obtain ⟨hbl, hwl⟩ := bpSpec_lengths (w2 :: ws2) (b2 :: bs2)
        (sigmoidV (vAdd (matVec w1 x) b1)) y hlen2
      simp only [List.length_cons] at hbl hwl
      have hft : forwardTrace (w1 :: w2 :: ws2) (b1 :: b2 :: bs2) x
          = (vAdd (matVec w1 x) b1 ::
              (forwardTrace (w2 :: ws2) (b2 :: bs2)
                (sigmoidV (vAdd (matVec w1 x) b1))).1,
             x :: (forwardTrace (w2 :: ws2) (b2 :: bs2)
                (sigmoidV (vAdd (matVec w1 x) b1))).2) := rfl
      rw [backwardState_def, hft]
      dsimp only [List.map_cons, List.length_cons, List.length_map]
      rw [List.getLastD_cons, List.getLastD_cons,
        getLastD_irrel x [] _ hT2ne,
        getLastD_irrel (vAdd (matVec w1 x) b1) [] _ hT1ne]
      simp only [Nat.add_sub_cancel]
      rw [List.set_cons_succ, List.set_cons_succ]
      have e1 : (forwardTrace (w2 :: ws2) (b2 :: bs2)
          (sigmoidV (vAdd (matVec w1 x) b1))).2.length + 1 - 2
          = ws2.length + 1 := by omega
      rw [e1, List.getD_cons_succ]
      have e2 : ws2.length + 1 + 1 + 1 - 2 = ws2.length + 1 := by omega
      rw [e2, List.range'_1_concat, List.foldl_append]
      rw [foldl_backStep_cons w1 (w2 :: ws2) (vAdd (matVec w1 x) b1)
            (forwardTrace (w2 :: ws2) (b2 :: bs2)
              (sigmoidV (vAdd (matVec w1 x) b1))).1 x
            (forwardTrace (w2 :: ws2) (b2 :: bs2)
              (sigmoidV (vAdd (matVec w1 x) b1))).2
            (by simp [hz]) (by omega)
            (List.range' 2 ws2.length)
            (hadamard (D_costV ((forwardTrace (w2 :: ws2) (b2 :: bs2)
                (sigmoidV (vAdd (matVec w1 x) b1))).2.getLastD []) y)
              (D_sigmoidV ((forwardTrace (w2 :: ws2) (b2 :: bs2)
                (sigmoidV (vAdd (matVec w1 x) b1))).1.getLastD [])))
            (zerosLikeV b1)
            ((zerosLikeV b2 :: List.map zerosLikeV bs2).set
              ((List.map zerosLikeV bs2).length)
              (hadamard (D_costV ((forwardTrace (w2 :: ws2) (b2 :: bs2)
                  (sigmoidV (vAdd (matVec w1 x) b1))).2.getLastD []) y)
                (D_sigmoidV ((forwardTrace (w2 :: ws2) (b2 :: bs2)
                  (sigmoidV (vAdd (matVec w1 x) b1))).1.getLastD []))))
            (zerosLikeM w1)
            ((zerosLikeM w2 :: List.map zerosLikeM ws2).set
              ((List.map zerosLikeM ws2).length)
              (outer (hadamard (D_costV ((forwardTrace (w2 :: ws2) (b2 :: bs2)
                    (sigmoidV (vAdd (matVec w1 x) b1))).2.getLastD []) y)
                  (D_sigmoidV ((forwardTrace (w2 :: ws2) (b2 :: bs2)
                    (sigmoidV (vAdd (matVec w1 x) b1))).1.getLastD [])))
                ((forwardTrace (w2 :: ws2) (b2 :: bs2)
                  (sigmoidV (vAdd (matVec w1 x) b1))).2.getD ws2.length [])))
            (by simp only [List.length_set, List.length_cons, List.length_map]; omega)
            (by simp only [List.length_set, List.length_cons, List.length_map]; omega)
            (fun L hm => by
              rw [List.mem_range'] at hm
              obtain ⟨i, hi, rfl⟩ := hm
              constructor
              · omega
              · rw [hz]; omega)]
      have hterm : (List.range' 2 ws2.length).foldl
          (backStep (w2 :: ws2)
            (forwardTrace (w2 :: ws2) (b2 :: bs2)
              (sigmoidV (vAdd (matVec w1 x) b1))).1
            (forwardTrace (w2 :: ws2) (b2 :: bs2)
              (sigmoidV (vAdd (matVec w1 x) b1))).2)
          (hadamard (D_costV ((forwardTrace (w2 :: ws2) (b2 :: bs2)
              (sigmoidV (vAdd (matVec w1 x) b1))).2.getLastD []) y)
            (D_sigmoidV ((forwardTrace (w2 :: ws2) (b2 :: bs2)
              (sigmoidV (vAdd (matVec w1 x) b1))).1.getLastD [])),
           (zerosLikeV b2 :: List.map zerosLikeV bs2).set
              ((List.map zerosLikeV bs2).length)
              (hadamard (D_costV ((forwardTrace (w2 :: ws2) (b2 :: bs2)
                  (sigmoidV (vAdd (matVec w1 x) b1))).2.getLastD []) y)
                (D_sigmoidV ((forwardTrace (w2 :: ws2) (b2 :: bs2)
                  (sigmoidV (vAdd (matVec w1 x) b1))).1.getLastD []))),
           (zerosLikeM w2 :: List.map zerosLikeM ws2).set
              ((List.map zerosLikeM ws2).length)
              (outer (hadamard (D_costV ((forwardTrace (w2 :: ws2) (b2 :: bs2)
                    (sigmoidV (vAdd (matVec w1 x) b1))).2.getLastD []) y)
                  (D_sigmoidV ((forwardTrace (w2 :: ws2) (b2 :: bs2)
                    (sigmoidV (vAdd (matVec w1 x) b1))).1.getLastD [])))
                ((forwardTrace (w2 :: ws2) (b2 :: bs2)
                  (sigmoidV (vAdd (matVec w1 x) b1))).2.getD ws2.length [])))
          = bpSpec (w2 :: ws2) (b2 :: bs2) (sigmoidV (vAdd (matVec w1 x) b1)) y := by
        rw [← ih, backwardState_def]
        dsimp only [List.map_cons, List.length_cons, List.length_map]
        have e3 : ws2.length + 1 + 1 - 2 = ws2.length := by omega
        have e4 : (forwardTrace (w2 :: ws2) (b2 :: bs2)
            (sigmoidV (vAdd (matVec w1 x) b1))).2.length - 2 = ws2.length := by omega
        rw [e3, e4]
        simp only [Nat.add_sub_cancel]
      rw [hterm]
      rw [show bpSpec (w1 :: w2 :: ws2) (b1 :: b2 :: bs2) x y
          = (hadamard (matVec (transposeM w2)
                (bpSpec (w2 :: ws2) (b2 :: bs2)
                  (sigmoidV (vAdd (matVec w1 x) b1)) y).1)
              (D_sigmoidV (vAdd (matVec w1 x) b1)),
             hadamard (matVec (transposeM w2)
                (bpSpec (w2 :: ws2) (b2 :: bs2)
                  (sigmoidV (vAdd (matVec w1 x) b1)) y).1)
              (D_sigmoidV (vAdd (matVec w1 x) b1)) ::
                (bpSpec (w2 :: ws2) (b2 :: bs2)
                  (sigmoidV (vAdd (matVec w1 x) b1)) y).2.1,
             outer (hadamard (matVec (transposeM w2)
                (bpSpec (w2 :: ws2) (b2 :: bs2)
                  (sigmoidV (vAdd (matVec w1 x) b1)) y).1)
              (D_sigmoidV (vAdd (matVec w1 x) b1))) x ::
                (bpSpec (w2 :: ws2) (b2 :: bs2)
                  (sigmoidV (vAdd (matVec w1 x) b1)) y).2.2) from rfl]
      simp only [List.foldl_cons, List.foldl_nil]
      dsimp only [backStep, List.length_cons]
      have i1 : (forwardTrace (w2 :: ws2) (b2 :: bs2)
          (sigmoidV (vAdd (matVec w1 x) b1))).1.length + 1 - (2 + ws2.length) = 0 := by
        omega
      have i2 : (bpSpec (w2 :: ws2) (b2 :: bs2)
          (sigmoidV (vAdd (matVec w1 x) b1)) y).2.1.length + 1 - (2 + ws2.length)
          = 0 := by omega
      have i3 : (bpSpec (w2 :: ws2) (b2 :: bs2)
          (sigmoidV (vAdd (matVec w1 x) b1)) y).2.2.length + 1 - (2 + ws2.length)
          = 0 := by omega
      have i4 : (forwardTrace (w2 :: ws2) (b2 :: bs2)
          (sigmoidV (vAdd (matVec w1 x) b1))).2.length + 1 - (2 + ws2.length) - 1
          = 0 := by omega
      have i5 : ws2.length + 1 + 1 + 1 - (2 + ws2.length) = 1 := by omega
      rw [i1, i2, i3, i4, i5]
      simp only [List.getD_cons_succ, List.getD_cons_zero, List.set_cons_zero]

theorem netShapes_head_shape {l1 : Nat} {rest : List Nat} {w2 : Mat} {ws : List Mat}
    {b2 : Vec} {bs : List Vec} (h : NetShapes (l1 :: rest) (w2 :: ws) (b2 :: bs)) :
    ∃ l2 rest2, rest = l2 :: rest2 ∧ HasShape w2 l2 l1 ∧ b2.length = l2 := by
  cases h with
  | cons _ l2 rest2 _ _ _ _ hw hb _ => exact ⟨l2, rest2, rfl, hw, hb⟩

theorem bpSpec_shapes :
    ∀ (lsz : List Nat) (ws : List Mat) (bs : List Vec) (x y : Vec),
      NetShapes lsz ws bs → (∀ s ∈ lsz, 0 < s) →
      x.length = lsz.getD 0 0 → y.length = lsz.getLastD 0 →
      ∀ i, i < ws.length →
        ((bpSpec ws bs x y).2.1.getD i []).length = lsz.getD (i + 1) 0 ∧
        HasShape ((bpSpec ws bs x y).2.2.getD i [])
          (lsz.getD (i + 1) 0) (lsz.getD i 0)
  | lsz, [w], [b], x, y, hns, hpos, hx, hy => by
      cases hns with
      | cons l0 l1 rest _ _ _ _ hw hb hrest =>
          cases hrest with
          | last _ =>
              intro i hi
              simp only [List.length_cons, List.length_nil] at hi
              have hi0 : i = 0 := by omega
              subst hi0
              rw [show bpSpec [w] [b] x y
                  = (hadamard (D_costV (sigmoidV (vAdd (matVec w x) b)) y)
                      (D_sigmoidV (vAdd (matVec w x) b)),
                     [hadamard (D_costV (sigmoidV (vAdd (matVec w x) b)) y)
                      (D_sigmoidV (vAdd (matVec w x) b))],
                     [outer (hadamard (D_costV (sigmoidV (vAdd (matVec w x) b)) y)
                      (D_sigmoidV (vAdd (matVec w x) b))) x]) from rfl]
              have hzlen : (vAdd (matVec w x) b).length = l1 := by
                rw [length_vAdd, length_matVec, hw.1, hb]
                simp
              have hylen : y.length = l1 := by
                simpa using hy
              have hdlen : (hadamard (D_costV (sigmoidV (vAdd (matVec w x) b)) y)
                  (D_sigmoidV (vAdd (matVec w x) b))).length = l1 := by
                rw [length_hadamard, length_D_costV, length_sigmoidV,
                  length_D_sigmoidV, hzlen, hylen]
                simp
              constructor
              · simpa using hdlen
              · have ho := outer_shape (hadamard (D_costV (sigmoidV
                    (vAdd (matVec w x) b)) y) (D_sigmoidV (vAdd (matVec w x) b))) x
                rw [hdlen, hx] at ho
                simpa using ho
  | lsz, w1 :: w2 :: ws2, b1 :: b2 :: bs2, x, y, hns, hpos, hx, hy => by
      cases hns with
      | cons l0 l1 rest _ _ _ _ hw1 hb1 hrest =>
          obtain ⟨l2, rest2, hr, hw2, hb2⟩ := netShapes_head_shape hrest
          subst hr
          have hl2pos : 0 < l2 := hpos l2 (by simp)
          have hzlen : (vAdd (matVec w1 x) b1).length = l1 := by
            rw [length_vAdd, length_matVec, hw1.1, hb1]
            simp
          have hx2 : (sigmoidV (vAdd (matVec w1 x) b1)).length
              = (l1 :: l2 :: rest2).getD 0 0 := by
            rw [length_sigmoidV, hzlen]
            simp
          have hy2 : y.length = (l1 :: l2 :: rest2).getLastD 0 := by
            rw [hy]
            simp only [List.getLastD_cons]
          have ih := bpSpec_shapes (l1 :: l2 :: rest2) (w2 :: ws2) (b2 :: bs2)
            (sigmoidV (vAdd (matVec w1 x) b1)) y hrest
            (fun s hs => hpos s (by simp at hs ⊢; tauto)) hx2 hy2
          have htr := transposeM_shape w2 l2 l1 hw2 hl2pos
          have hdlen : (hadamard (matVec (transposeM w2)
              (bpSpec (w2 :: ws2) (b2 :: bs2)
                (sigmoidV (vAdd (matVec w1 x) b1)) y).1)
              (D_sigmoidV (vAdd (matVec w1 x) b1))).length = l1 := by
            rw [length_hadamard, length_matVec, length_D_sigmoidV, htr.1, hzlen]
            simp
          rw [show bpSpec (w1 :: w2 :: ws2) (b1 :: b2 :: bs2) x y
              = (hadamard (matVec (transposeM w2)
                    (bpSpec (w2 :: ws2) (b2 :: bs2)
                      (sigmoidV (vAdd (matVec w1 x) b1)) y).1)
                  (D_sigmoidV (vAdd (matVec w1 x) b1)),
                 hadamard (matVec (transposeM w2)
                    (bpSpec (w2 :: ws2) (b2 :: bs2)
                      (sigmoidV (vAdd (matVec w1 x) b1)) y).1)
                  (D_sigmoidV (vAdd (matVec w1 x) b1)) ::
                    (bpSpec (w2 :: ws2) (b2 :: bs2)
                      (sigmoidV (vAdd (matVec w1 x) b1)) y).2.1,
                 outer (hadamard (matVec (transposeM w2)
                    (bpSpec (w2 :: ws2) (b2 :: bs2)
                      (sigmoidV (vAdd (matVec w1 x) b1)) y).1)
                  (D_sigmoidV (vAdd (matVec w1 x) b1))) x ::
                    (bpSpec (w2 :: ws2) (b2 :: bs2)
                      (sigmoidV (vAdd (matVec w1 x) b1)) y).2.2) from rfl]
          intro i hi
          cases i with
          | zero =>
              constructor
              · simpa using hdlen
              · have ho := outer_shape (hadamard (matVec (transposeM w2)
                    (bpSpec (w2 :: ws2) (b2 :: bs2)
                      (sigmoidV (vAdd (matVec w1 x) b1)) y).1)
                    (D_sigmoidV (vAdd (matVec w1 x) b1))) x
                rw [hdlen, hx] at ho
                simpa using ho
          | succ i2 =>
              have hi2 : i2 < (w2 :: ws2).length := by
                simp only [List.length_cons] at hi ⊢
                omega
              have := ih i2 hi2
              simpa using this
  | _, [], _, _, _, hns, _, _, _ => by
      intro i hi
      simp at hi
  | lsz, [w], [], x, y, hns, _, _, _ => by cases hns
  | lsz, [w], _ :: _ :: _, x, y, hns, _, _, _ => by
      cases hns with
      | cons _ _ _ _ _ _ _ _ _ hrest => cases hrest
  | lsz, _ :: _ :: _, [], x, y, hns, _, _, _ => by cases hns
  | lsz, _ :: _ :: _, [_], x, y, hns, _, _, _ => by
      cases hns with
      | cons _ _ _ _ _ _ _ _ _ hrest => cases hrest

/-- Claim C1: for every well-formed network and every column input and
target of the declared input and output sizes, backpropagate returns
exactly the gradient pair computed by the specification's algorithm
(`bpSpec`: forward pass retaining all zs and activations with the input as
layer 0, output delta `D_cost ⊙ D_sigmoid`, then walking back with
`delta = (W_next^T · delta) ⊙ D_sigmoid(z)`, bias-gradient `delta`,
weight-gradient `delta · a_prev^T`); the returned lists are ordered
input-to-output, one entry per layer transition, each entry of the same
shape as its corresponding parameter. -/
theorem backpropagate_matches_spec_algorithm (net : Network) (hwf : net.WF)
    (x y : Vec) (hx : x.length = net.layersz.getD 0 0)
    (hy : y.length = net.layersz.getLastD 0) :
    backpropagate net (colVec x) (colVec y) =
      Except.ok ((bpSpec net.weights net.biases x y).2.1,
        (bpSpec net.weights net.biases x y).2.2) ∧
    (bpSpec net.weights net.biases x y).2.1.length = net.layersz.length - 1 ∧
    (bpSpec net.weights net.biases x y).2.2.length = net.layersz.length - 1 ∧
    ∀ i, i < net.layersz.length - 1 →
      ((bpSpec net.weights net.biases x y).2.1.getD i []).length
        = net.layersz.getD (i + 1) 0 ∧
      HasShape ((bpSpec net.weights net.biases x y).2.2.getD i [])
        (net.layersz.getD (i + 1) 0) (net.layersz.getD i 0) := by
  obtain ⟨h2, hpos, hns⟩ := hwf
  obtain ⟨hwlen, hblen, _⟩ := netShapes_lengths hns
  have hle : 1 ≤ net.weights.length := by omega
  have heq : net.weights.length = net.biases.length := by omega
  refine ⟨?_, ?_, ?_, ?_⟩
  · unfold backpropagate
    rw [if_pos (by simp [colVec, hx]), if_pos (by simp [colVec, hy])]
    show Except.ok (backpropagateCore net.layersz.length net.weights net.biases x y) = _
    unfold backpropagateCore
    have hn : net.layersz.length = net.weights.length + 1 := by omega
    rw [hn, backwardState_eq_bpSpec net.weights net.biases x y heq hle]
  · rw [(bpSpec_lengths net.weights net.biases x y heq).1]
    omega
  · rw [(bpSpec_lengths net.weights net.biases x y heq).2]
    omega
  · intro i hi
    exact bpSpec_shapes net.layersz net.weights net.biases x y hns hpos hx hy i
      (by omega)

theorem backpropagate_matches_spec_algorithm_witness :
    sampleNet.WF ∧ ([(0 : ℝ)].length = sampleNet.layersz.getD 0 0) ∧
    ([(0 : ℝ)].length = sampleNet.layersz.getLastD 0) ∧
    (backpropagate sampleNet (colVec [0]) (colVec [0]) =
      Except.ok ((bpSpec sampleNet.weights sampleNet.biases [0] [0]).2.1,
        (bpSpec sampleNet.weights sampleNet.biases [0] [0]).2.2) ∧
    (bpSpec sampleNet.weights sampleNet.biases [0] [0]).2.1.length
      = sampleNet.layersz.length - 1 ∧
    (bpSpec sampleNet.weights sampleNet.biases [0] [0]).2.2.length
      = sampleNet.layersz.length - 1 ∧
    ∀ i, i < sampleNet.layersz.length - 1 →
      ((bpSpec sampleNet.weights sampleNet.biases [0] [0]).2.1.getD i []).length
        = sampleNet.layersz.getD (i + 1) 0 ∧
      HasShape ((bpSpec sampleNet.weights sampleNet.biases [0] [0]).2.2.getD i [])
        (sampleNet.layersz.getD (i + 1) 0) (sampleNet.layersz.getD i 0)) :=
  ⟨sampleNet_wf, by simp [sampleNet], by simp [sampleNet],
    backpropagate_matches_spec_algorithm sampleNet sampleNet_wf [0] [0]
      (by simp [sampleNet]) (by simp [sampleNet])⟩

/-! ### Claim C2 -/

theorem sumGrads_ok (net : Network) :
    ∀ (batch : List (NDArray × NDArray)) (acc : List Vec × List Mat),
      (∀ p ∈ batch, p.1.shape = [net.layersz.getD 0 0, 1] ∧
        p.2.shape = [net.layersz.getLastD 0, 1]) →
      sumGrads net batch acc = Except.ok
        (batch.foldl (fun acc2 p => addGrads acc2
          (backpropagateCore net.layersz.length net.weights net.biases
            p.1.data p.2.data)) acc)
  | [], _, _ => rfl
  | p :: rest, acc, h => by
      have hp := h p (by simp)
      have hbp : backpropagate net p.1 p.2 = Except.ok
          (backpropagateCore net.layersz.length net.weights net.biases
            p.1.data p.2.data) := by
        unfold backpropagate
        rw [if_pos hp.1, if_pos hp.2]
      unfold sumGrads
      rw [hbp]
      show sumGrads net rest (addGrads acc (backpropagateCore net.layersz.length
        net.weights net.biases p.1.data p.2.data)) = _
      rw [sumGrads_ok net rest _ (fun q hq => h q (by simp [hq]))]
      rfl

/-- Claim C2: each SGD batch update (the body of the batch loop, which
`runBatches` applies to every batch of the epoch) subtracts
`(eta / batch.length)` times the sum of the per-example gradients of that
batch from every weight and bias — the divisor is the number of examples
actually in the batch, so a short final batch is divided by its own size,
not the configured one. -/
theorem updateBatch_subtracts_scaled_gradient_sum (net : Network) (eta : ℝ)
    (batch : List (NDArray × NDArray)) (hne : batch ≠ [])
    (hshape : ∀ p ∈ batch, p.1.shape = [net.layersz.getD 0 0, 1] ∧
      p.2.shape = [net.layersz.getLastD 0, 1]) :
    updateBatch net eta batch = Except.ok
      { layersz := net.layersz
        biases := List.zipWith
          (fun b db => vSub b (smulV (eta / (batch.length : ℝ)) db))
          net.biases (gradSum net batch).1
        weights := List.zipWith
          (fun w dw => matSub w (smulM (eta / (batch.length : ℝ)) dw))
          net.weights (gradSum net batch).2 } ∧
    ∀ rest : List (List (NDArray × NDArray)),
      runBatches eta net (batch :: rest) =
        (updateBatch net eta batch).bind
          (fun net2 => runBatches eta net2 rest) := by
  constructor
  · unfold updateBatch
    rw [sumGrads_ok net batch (zeroGrads net) hshape]
    rfl
  · intro rest
    rfl

theorem updateBatch_subtracts_scaled_gradient_sum_witness :
    ([(colVec [(0 : ℝ)], colVec [(0 : ℝ)])] : List (NDArray × NDArray)) ≠ [] ∧
    (∀ p ∈ [(colVec [(0 : ℝ)], colVec [(0 : ℝ)])],
      p.1.shape = [sampleNet.layersz.getD 0 0, 1] ∧
      p.2.shape = [sampleNet.layersz.getLastD 0, 1]) ∧
    (updateBatch sampleNet 1 [(colVec [(0 : ℝ)], colVec [(0 : ℝ)])] = Except.ok
      { layersz := sampleNet.layersz
        biases := List.zipWith
          (fun b db => vSub b (smulV
            (1 / (([(colVec [(0 : ℝ)], colVec [(0 : ℝ)])].length : Nat) : ℝ)) db))
          sampleNet.biases
          (gradSum sampleNet [(colVec [(0 : ℝ)], colVec [(0 : ℝ)])]).1
        weights := List.zipWith
          (fun w dw => matSub w (smulM
            (1 / (([(colVec [(0 : ℝ)], colVec [(0 : ℝ)])].length : Nat) : ℝ)) dw))
          sampleNet.weights
          (gradSum sampleNet [(colVec [(0 : ℝ)], colVec [(0 : ℝ)])]).2 } ∧
    ∀ rest : List (List (NDArray × NDArray)),
      runBatches 1 sampleNet ([(colVec [(0 : ℝ)], colVec [(0 : ℝ)])] :: rest) =
        (updateBatch sampleNet 1 [(colVec [(0 : ℝ)], colVec [(0 : ℝ)])]).bind
          (fun net2 => runBatches 1 net2 rest)) :=
  ⟨by simp, by simp [colVec, sampleNet],
    updateBatch_subtracts_scaled_gradient_sum sampleNet 1
      [(colVec [(0 : ℝ)], colVec [(0 : ℝ)])] (by simp)
      (by simp [colVec, sampleNet])⟩

end
